import Mathlib

/-!
Shallow embedding of the pagination code in `0x00-pagination/`:
`0-simple_helper_function.py`, `1-simple_pagination.py`,
`2-hypermedia_pagination.py` and `3-hypermedia_del_pagination.py`.

A CSV row is a list of field strings.  The `Server` object's mutable
attributes (`__dataset`, `__indexed_dataset`) are modelled as an explicit
state record threaded through the methods; the contents of `DATA_FILE` are
passed in as the list of raw rows the csv reader would produce, so that
"re-reading the file" is observable as a dependence on that argument.
-/

namespace AlxBackend

/-- A record: one row of the CSV dataset, a list of field strings. -/
abbrev Record : Type := List String

/-- A Python runtime value passed as a pagination argument: either an
integer (`isinstance(x, int)` holds) or some non-integer value. -/
inductive PyVal where
  | int : Int → PyVal
  | nonInt : PyVal
deriving DecidableEq

/-- Python exceptions that the pagination code can surface. -/
inductive PyError where
  | assertionError : PyError
  | typeError : PyError
deriving DecidableEq

/-- Python list slicing `l[start:stop]` for nonnegative bounds:
the elements at positions `start, ..., stop - 1`, clamped to the list. -/
def pySlice (l : List Record) (start stop : Nat) : List Record :=
  (l.take stop).drop start

/-- `index_range(page, page_size)` from `0-simple_helper_function.py`
(and repeated in `1-simple_pagination.py`, `2-hypermedia_pagination.py`):
`((page - 1) * page_size, page * page_size)`. -/
def index_range (page page_size : Int) : Int × Int :=
  ((page - 1) * page_size, page * page_size)

/-- The mutable attributes of a `Server` instance:
`self.__dataset` and `self.__indexed_dataset`. -/
structure ServerState where
  dataset : Option (List Record)
  indexed_dataset : Option (List (Nat × Record))
deriving DecidableEq

/-- `Server.__init__`: both caches start out as `None`. -/
def Server.init : ServerState := ⟨none, none⟩

/-- `Server.dataset` from `1-simple_pagination.py` /
`2-hypermedia_pagination.py` / `3-hypermedia_del_pagination.py`:
if the cache is empty, read all rows of `DATA_FILE` (the `fileRows`
argument), drop the header row, store and return the rest; otherwise
return the cached value unchanged. -/
def Server.dataset (fileRows : List Record) (s : ServerState) :
    List Record × ServerState :=
  match s.dataset with
  | some d => (d, s)
  | none =>
      let d := fileRows.drop 1
      (d, { s with dataset := some d })

/-- `Server.indexed_dataset` from `3-hypermedia_del_pagination.py`:
if the cache is empty, build `{i: truncated_dataset[i] for i in
range(len(truncated_dataset))}` where `truncated_dataset = dataset()[:1000]`,
store and return it; otherwise return the cached mapping unchanged.
The Python dict is modelled as the association list of its key/value
pairs in insertion (ascending-key) order. -/
def Server.indexed_dataset (fileRows : List Record) (s : ServerState) :
    List (Nat × Record) × ServerState :=
  match s.indexed_dataset with
  | some m => (m, s)
  | none =>
      let r := Server.dataset fileRows s
      let truncated := r.1.take 1000
      let m := (List.range truncated.length).map (fun i => (i, truncated.getD i []))
      (m, { r.2 with indexed_dataset := some m })

/-- `Server.get_page` from `1-simple_pagination.py` /
`2-hypermedia_pagination.py`: assert that both arguments are `int`
instances and positive, compute `index_range(page, page_size)` and return
`self.dataset()[start:end]`.  A failed assertion is `AssertionError`. -/
def Server.get_page (fileRows : List Record) (s : ServerState)
    (page page_size : PyVal) : Except PyError (List Record × ServerState) :=
  match page, page_size with
  | .int p, .int sz =>
      if 0 < p ∧ 0 < sz then
        let se := index_range p sz
        let r := Server.dataset fileRows s
        .ok (pySlice r.1 se.1.toNat se.2.toNat, r.2)
      else .error .assertionError
  | _, _ => .error .assertionError

/-- The page descriptor dict returned by `Server.get_hyper`. -/
structure PageHyper where
  page_size : Nat
  page : Int
  data : List Record
  next_page : Option Int
  prev_page : Option Int
  total_pages : Nat
deriving DecidableEq

/-- `Server.get_hyper` from `2-hypermedia_pagination.py`:
`dataset_records = self.get_page(page, page_size)` (propagating its
exception), `total_pages = math.ceil(len(self.__dataset) / page_size)`
(embedded as the exact ceiling `(len + sz - 1) / sz` on naturals;
`self.__dataset` is necessarily loaded after `get_page` succeeded, the
`None` branch would be Python's `TypeError`), then the descriptor dict
with `next_page = page + 1 if (page + 1) <= total_pages else None` and
`prev_page = page - 1 if (page - 1) > 0 else None`. -/
def Server.get_hyper (fileRows : List Record) (s : ServerState)
    (page page_size : PyVal) : Except PyError (PageHyper × ServerState) :=
  match Server.get_page fileRows s page page_size with
  | .error e => .error e
  | .ok (records, s1) =>
      match s1.dataset with
      | none => .error .typeError
      | some ds =>
          match page, page_size with
          | .int p, .int sz =>
              let tp := (ds.length + sz.toNat - 1) / sz.toNat
              .ok ({ page_size := records.length
                   , page := p
                   , data := records
                   , next_page := if p + 1 ≤ (tp : Int) then some (p + 1) else none
                   , prev_page := if p - 1 > 0 then some (p - 1) else none
                   , total_pages := tp }, s1)
          | _, _ => .error .typeError

/-- Python dict key lookup in the Index Map: the value at key `i`,
or `none` when key `i` is absent (deleted). -/
def lookupKey (m : List (Nat × Record)) (i : Nat) : Option Record :=
  (m.find? (fun e => e.1 == i)).map (fun e => e.2)

/-- The largest key occurring in the Index Map (0 for the empty map). -/
def maxKey (m : List (Nat × Record)) : Nat :=
  m.foldr (fun e acc => max e.1 acc) 0

/-- One ascending walk over the key space: starting at key `i` with
`fuel` remaining key positions, collect entries whose keys are present,
skipping absent keys, until `psize` entries are collected or the key
space is exhausted.  Returns the collected entries (in ascending key
order) together with the position following the last one visited. -/
def walkCollect (m : List (Nat × Record)) :
    Nat → Nat → Nat → List (Nat × Record) × Nat
  | 0, i, _ => ([], i)
  | fuel + 1, i, psize =>
      if psize = 0 then ([], i)
      else
        match lookupKey m i with
        | some r =>
            let rest := walkCollect m fuel (i + 1) (psize - 1)
            ((i, r) :: rest.1, rest.2)
        | none => walkCollect m fuel (i + 1) psize

/-- The page descriptor dict returned by `Server.get_hyper_index`. -/
structure DelPage where
  index : Nat
  next_index : Nat
  page_size : Nat
  data : List Record
deriving DecidableEq

/-- Modelled from the spec: the body of `Server.get_hyper_index` in
`3-hypermedia_del_pagination.py` is missing from the source (its body is
`pass`, marked "implementation is pending").  Following the spec's
algorithm: assert `0 ≤ index < size of the Index Map's key domain`
(violation is `AssertionError`), then starting from `index` walk forward
through the Index Map's key space in ascending order, skipping absent
(deleted) keys, collecting entries until `page_size` entries are
collected or keys are exhausted; return the descriptor with the input
`index`, the resume position `next_index`, the actual count `page_size`
and the collected records `data` in ascending key order. -/
def get_hyper_index (m : List (Nat × Record)) (index : Int)
    (page_size : Nat) : Except PyError DelPage :=
  if 0 ≤ index ∧ index < (m.length : Int) then
    let i := index.toNat
    let r := walkCollect m (maxKey m + 1 - i) i page_size
    .ok { index := i, next_index := r.2, page_size := r.1.length
        , data := r.1.map (fun e => e.2) }
  else .error .assertionError

/-- The validation performed by `get_page`'s two `assert` statements:
both arguments are `int` instances and positive. -/
def validArgs : PyVal → PyVal → Bool
  | .int p, .int sz => 0 < p && 0 < sz
  | _, _ => false

/-- Whether an `Except` result is a success. -/
def isOkB {α : Type} : Except PyError α → Bool
  | .ok _ => true
  | .error _ => false

/-- The example Index Map of the spec: `{0:A,1:B,2:C,3:D}` with key 1
deleted, record `X` being the one-field row `["X"]`. -/
def mEx : List (Nat × Record) := [(0, ["A"]), (2, ["C"]), (3, ["D"])]

/-- A 51-row file: header plus 50 data rows. -/
def rows51 : List Record := List.replicate 51 []

/-- A 3-row file: header plus data rows `["a"]` and `["b"]`. -/
def rows3 : List Record := [["h"], ["a"], ["b"]]

end AlxBackend
namespace AlxBackend

/-- After any call to `dataset`, the returned state caches exactly the
returned dataset value. -/
theorem dataset_state (fileRows : List Record) (s : ServerState) :
    (Server.dataset fileRows s).2.dataset = some (Server.dataset fileRows s).1 := by
  cases s with
  | mk d i => cases d <;> rfl

/-- `get_page` on positive integer arguments: the successful result,
as a slice of the loaded dataset. -/
theorem get_page_int (fileRows : List Record) (s : ServerState) (p sz : Int)
    (hp : 1 ≤ p) (hsz : 1 ≤ sz) :
    Server.get_page fileRows s (.int p) (.int sz) =
      .ok (pySlice (Server.dataset fileRows s).1 ((p - 1) * sz).toNat (p * sz).toNat,
           (Server.dataset fileRows s).2) := by
  simp only [Server.get_page, index_range]
  rw [if_pos ⟨by omega, by omega⟩]

/-- `get_hyper` on positive integer arguments: the full successful
descriptor, unfolded. -/
theorem get_hyper_spec (fileRows : List Record) (s : ServerState) (p sz : Int)
    (hp : 1 ≤ p) (hsz : 1 ≤ sz) :
    Server.get_hyper fileRows s (.int p) (.int sz) =
      .ok ({ page_size := (pySlice (Server.dataset fileRows s).1
                ((p - 1) * sz).toNat (p * sz).toNat).length
           , page := p
           , data := pySlice (Server.dataset fileRows s).1
                ((p - 1) * sz).toNat (p * sz).toNat
           , next_page :=
               if p + 1 ≤ ((((Server.dataset fileRows s).1.length + sz.toNat - 1) / sz.toNat : Nat) : Int)
               then some (p + 1) else none
           , prev_page := if p - 1 > 0 then some (p - 1) else none
           , total_pages := ((Server.dataset fileRows s).1.length + sz.toNat - 1) / sz.toNat },
           (Server.dataset fileRows s).2) := by
  cases s with
  | mk d i =>
    cases d with
    | none =>
        simp only [Server.get_hyper, Server.get_page, index_range, Server.dataset]
        rw [if_pos ⟨by omega, by omega⟩]
    | some ds =>
        simp only [Server.get_hyper, Server.get_page, index_range, Server.dataset]
        rw [if_pos ⟨by omega, by omega⟩]

end AlxBackend
namespace AlxBackend

/-- C8: `dataset()` is idempotent on the server state: after one call, any
later call, even with different file contents (so no re-read can be
observed), returns the same cached sequence and leaves the state unchanged. -/
theorem claim_C8 (fileRows fileRows2 : List Record) (s : ServerState) :
    Server.dataset fileRows2 (Server.dataset fileRows s).2 =
      ((Server.dataset fileRows s).1, (Server.dataset fileRows s).2) := by
  cases s with
  | mk d i => cases d <;> rfl

/-- `validArgs` on two integer arguments decides their positivity. -/
theorem validArgs_int (p sz : Int) :
    validArgs (.int p) (.int sz) = decide (0 < p ∧ 0 < sz) := by
  by_cases h1 : 0 < p <;> by_cases h2 : 0 < sz <;> simp [validArgs, h1, h2]

/-- C6: `get_page(page, page_size)` succeeds exactly when both arguments are
integers and positive (`validArgs`); on violation it fails fast with the
assertion (InvalidArgument) error and returns no result. -/
theorem claim_C6 (fileRows : List Record) (s : ServerState) (page page_size : PyVal) :
    isOkB (Server.get_page fileRows s page page_size) = validArgs page page_size ∧
    (validArgs page page_size = false →
      Server.get_page fileRows s page page_size = .error .assertionError) := by
  cases page with
  | int p =>
      cases page_size with
      | int sz =>
          by_cases h : 0 < p ∧ 0 < sz
          · rw [get_page_int fileRows s p sz (by omega) (by omega)]
            refine ⟨?_, ?_⟩
            · show true = validArgs (.int p) (.int sz)
              rw [validArgs_int, decide_eq_true h]
            · intro hv
              rw [validArgs_int, decide_eq_true h] at hv
              exact Bool.noConfusion hv
          · have hv : validArgs (.int p) (.int sz) = false := by
              rw [validArgs_int]; exact decide_eq_false h
            refine ⟨?_, fun _ => ?_⟩
            · rw [hv]
              simp only [Server.get_page]
              rw [if_neg h]
              rfl
            · simp only [Server.get_page]
              rw [if_neg h]
      | nonInt => exact ⟨rfl, fun _ => rfl⟩
  | nonInt => cases page_size <;> exact ⟨rfl, fun _ => rfl⟩

/-- C7: for integers page ≥ 1 and page_size ≥ 1, `get_page` returns the slice
Dataset[start:end] with `(start, end) = index_range(page, page_size) =
((page-1)*page_size, page*page_size)`; when start ≥ the dataset length it
returns the empty sequence rather than an error. -/
theorem claim_C7 (fileRows : List Record) (s : ServerState) (p sz : Int)
    (hp : 1 ≤ p) (hsz : 1 ≤ sz) :
    index_range p sz = ((p - 1) * sz, p * sz) ∧
    Server.get_page fileRows s (.int p) (.int sz) =
      .ok (pySlice (Server.dataset fileRows s).1 ((p - 1) * sz).toNat (p * sz).toNat,
           (Server.dataset fileRows s).2) ∧
    (((Server.dataset fileRows s).1.length : Int) ≤ (p - 1) * sz →
      Server.get_page fileRows s (.int p) (.int sz) =
        .ok ([], (Server.dataset fileRows s).2)) := by
  refine ⟨rfl, get_page_int fileRows s p sz hp hsz, ?_⟩
  intro hlen
  rw [get_page_int fileRows s p sz hp hsz]
  have hA : (0 : Int) ≤ (p - 1) * sz := mul_nonneg (by omega) (by omega)
  have hslice : pySlice (Server.dataset fileRows s).1
      ((p - 1) * sz).toNat ((p * sz)).toNat = [] := by
    unfold pySlice
    apply List.drop_eq_nil_of_le
    rw [List.length_take]
    generalize hX : (p - 1) * sz = A at hA hlen
    omega
  rw [hslice]

end AlxBackend
namespace AlxBackend

/-- C3 counterexample: the claim that `next_page` is None iff
`page = total_pages` (for all integer page ≥ 1, page_size ≥ 1) is false:
on a one-record dataset with page = 2 and page_size = 1, `get_hyper`
succeeds, `next_page` is None, yet page = 2 while total_pages = 1. -/
theorem claim_C3_counterexample :
    ¬ (∀ (fileRows : List Record) (s : ServerState) (p sz : Int),
        1 ≤ p → 1 ≤ sz →
        ∀ (d : PageHyper) (s2 : ServerState),
          Server.get_hyper fileRows s (.int p) (.int sz) = .ok (d, s2) →
          ((d.next_page = none ↔ d.page = (d.total_pages : Int)) ∧
           (d.prev_page = none ↔ d.page = 1))) := by
  intro h
  have h2 := h [[], ["r"]] Server.init 2 1 (by omega) (by omega)
      ⟨0, 2, [], none, some 1, 1⟩ ⟨some [["r"]], none⟩ rfl
  have h3 : (2 : Int) = ((1 : Nat) : Int) := h2.1.mp rfl
  exact absurd h3 (by decide)

/-- C3 (amended): in the descriptor returned by `get_hyper(page, page_size)`
for integers page ≥ 1 and page_size ≥ 1, `next_page` is None iff
page ≥ total_pages (the claimed equality fails only when page exceeds
total_pages), and `prev_page` is None iff page = 1. -/
theorem claim_C3_amended (fileRows : List Record) (s : ServerState) (p sz : Int)
    (hp : 1 ≤ p) (hsz : 1 ≤ sz) (d : PageHyper) (s2 : ServerState)
    (hok : Server.get_hyper fileRows s (.int p) (.int sz) = .ok (d, s2)) :
    (d.next_page = none ↔ (d.total_pages : Int) ≤ d.page) ∧
    (d.prev_page = none ↔ d.page = 1) := by
  rw [get_hyper_spec fileRows s p sz hp hsz] at hok
  simp only [Except.ok.injEq, Prod.mk.injEq] at hok
  obtain ⟨rfl, -⟩ := hok
  set tp := ((Server.dataset fileRows s).1.length + sz.toNat - 1) / sz.toNat with htp
  constructor
  · by_cases hc : p + 1 ≤ (tp : Int)
    · simp only [if_pos hc]
      constructor
      · intro hn; exact Option.noConfusion hn
      · intro hle; omega
    · simp only [if_neg hc]
      constructor
      · intro _; omega
      · intro _; trivial
  · by_cases hc : p - 1 > 0
    · simp only [if_pos hc]
      constructor
      · intro hn; exact Option.noConfusion hn
      · intro he; omega
    · simp only [if_neg hc]
      constructor
      · intro _; omega
      · intro _; trivial

/-- C4: for integers page ≥ 1 and page_size ≥ 1, the `page_size` field of the
descriptor returned by `get_hyper` equals the length of its `data` field,
and that actual count is at most the requested page_size. -/
theorem claim_C4 (fileRows : List Record) (s : ServerState) (p sz : Int)
    (hp : 1 ≤ p) (hsz : 1 ≤ sz) (d : PageHyper) (s2 : ServerState)
    (hok : Server.get_hyper fileRows s (.int p) (.int sz) = .ok (d, s2)) :
    d.page_size = d.data.length ∧ (d.data.length : Int) ≤ sz := by
  rw [get_hyper_spec fileRows s p sz hp hsz] at hok
  simp only [Except.ok.injEq, Prod.mk.injEq] at hok
  obtain ⟨rfl, -⟩ := hok
  refine ⟨rfl, ?_⟩
  show ((pySlice (Server.dataset fileRows s).1
      ((p - 1) * sz).toNat ((p * sz)).toNat).length : Int) ≤ sz
  unfold pySlice
  rw [List.length_drop, List.length_take]
  have hAB : (p - 1) * sz + sz = p * sz := by ring
  have hA : (0 : Int) ≤ (p - 1) * sz := mul_nonneg (by omega) (by omega)
  generalize hX : (p - 1) * sz = A at hAB hA ⊢
  generalize hY : p * sz = B at hAB ⊢
  omega

end AlxBackend
namespace AlxBackend

/-- `(a + b - 1) / b` on naturals is the ceiling of the exact division. -/
theorem ceilDiv_eq_natCeil (a b : Nat) (hb : 0 < b) :
    (a + b - 1) / b = ⌈(a : ℚ) / (b : ℚ)⌉₊ := by
  have hbQ : (0 : ℚ) < (b : ℚ) := by exact_mod_cast hb
  apply le_antisymm
  · rw [Nat.div_le_iff_le_mul_add_pred hb]
    have h1 : (a : ℚ) / (b : ℚ) ≤ (⌈(a : ℚ) / (b : ℚ)⌉₊ : ℚ) := Nat.le_ceil _
    rw [div_le_iff₀ hbQ] at h1
    have h2 : a ≤ ⌈(a : ℚ) / (b : ℚ)⌉₊ * b := by exact_mod_cast h1
    have h3 : a + b - 1 ≤ ⌈(a : ℚ) / (b : ℚ)⌉₊ * b + (b - 1) := by
      have h4 := Nat.add_le_add_right h2 (b - 1)
      rwa [show a + b - 1 = a + (b - 1) by omega]
    rwa [Nat.mul_comm] at h3
  · rw [Nat.ceil_le, div_le_iff₀ hbQ]
    have h4 : a ≤ ((a + b - 1) / b) * b := by
      rw [Nat.mul_comm]
      have h5 := Nat.div_add_mod (a + b - 1) b
      have h6 : (a + b - 1) % b < b := Nat.mod_lt _ hb
      generalize hr : (a + b - 1) % b = r at h5 h6
      generalize hX : b * ((a + b - 1) / b) = X at h5 ⊢
      omega
    exact_mod_cast h4

/-- C5: for integers page ≥ 1 and page_size ≥ 1, the descriptor returned by
`get_hyper(page, page_size)` has `data` equal to the result of
`get_page(page, page_size)` and `total_pages` equal to the ceiling of
len(Dataset) divided by page_size, Dataset being the loaded dataset. -/
theorem claim_C5 (fileRows : List Record) (s : ServerState) (p sz : Int)
    (hp : 1 ≤ p) (hsz : 1 ≤ sz) (d : PageHyper) (s2 : ServerState)
    (hok : Server.get_hyper fileRows s (.int p) (.int sz) = .ok (d, s2)) :
    Server.get_page fileRows s (.int p) (.int sz) = .ok (d.data, s2) ∧
    d.total_pages = ⌈((Server.dataset fileRows s).1.length : ℚ) / ((sz : Int) : ℚ)⌉₊ := by
  rw [get_hyper_spec fileRows s p sz hp hsz] at hok
  simp only [Except.ok.injEq, Prod.mk.injEq] at hok
  obtain ⟨rfl, rfl⟩ := hok
  refine ⟨get_page_int fileRows s p sz hp hsz, ?_⟩
  show ((Server.dataset fileRows s).1.length + sz.toNat - 1) / sz.toNat = _
  rw [ceilDiv_eq_natCeil _ _ (by omega)]
  have hsz2 : ((sz.toNat : Nat) : ℚ) = ((sz : Int) : ℚ) := by
    have h0 : ((sz.toNat : Nat) : Int) = sz := Int.toNat_of_nonneg (by omega)
    exact_mod_cast h0
  rw [hsz2]

/-- Error results at two different success types agree exactly when the
exception values agree. -/
theorem error_iff_error {A B : Type} (a : PyError) (e : PyError) :
    ((Except.error a : Except PyError A) = .error e) ↔
      ((Except.error a : Except PyError B) = .error e) := by
  simp only [Except.error.injEq]

/-- C10: `get_hyper` fails with exactly the same error as `get_page`, to which
it delegates its validation, and it succeeds exactly when both arguments are
positive integers, even when page is far beyond the last page. -/
theorem claim_C10 (fileRows : List Record) (s : ServerState) (page page_size : PyVal) :
    (∀ e : PyError, Server.get_hyper fileRows s page page_size = .error e ↔
        Server.get_page fileRows s page page_size = .error e) ∧
    isOkB (Server.get_hyper fileRows s page page_size) = validArgs page page_size := by
  cases page with
  | int p =>
      cases page_size with
      | int sz =>
          by_cases h : 0 < p ∧ 0 < sz
          · rw [get_hyper_spec fileRows s p sz (by omega) (by omega),
              get_page_int fileRows s p sz (by omega) (by omega)]
            refine ⟨fun e => ⟨fun he => Except.noConfusion he, fun he => Except.noConfusion he⟩, ?_⟩
            show true = validArgs (.int p) (.int sz)
            rw [validArgs_int, decide_eq_true h]
          · have hpage : Server.get_page fileRows s (.int p) (.int sz) =
                .error .assertionError := by
              simp only [Server.get_page]
              rw [if_neg h]
            have hhyper : Server.get_hyper fileRows s (.int p) (.int sz) =
                .error .assertionError := by
              simp only [Server.get_hyper]
              rw [hpage]
            rw [hpage, hhyper]
            refine ⟨fun e => error_iff_error _ e, ?_⟩
            show false = validArgs (.int p) (.int sz)
            rw [validArgs_int]
            exact (decide_eq_false h).symm
      | nonInt =>
          refine ⟨fun e => ?_, rfl⟩
          show (Except.error .assertionError : Except PyError (PageHyper × ServerState)) = .error e ↔
            (Except.error .assertionError : Except PyError (List Record × ServerState)) = .error e
          exact error_iff_error _ e
  | nonInt =>
      cases page_size <;>
      · refine ⟨fun e => ?_, rfl⟩
        show (Except.error .assertionError : Except PyError (PageHyper × ServerState)) = .error e ↔
          (Except.error .assertionError : Except PyError (List Record × ServerState)) = .error e
        exact error_iff_error _ e

end AlxBackend
namespace AlxBackend

/-- Key lookup in the association list built over `List.range n`. -/
theorem find_mapRange (f : Nat → Record) (n i : Nat) :
    ((List.range n).map (fun j => (j, f j))).find? (fun e => e.1 == i) =
      if i < n then some (i, f i) else none := by
  induction n with
  | zero => simp
  | succ n ih =>
      rw [List.range_succ, List.map_append, List.find?_append, ih]
      by_cases h : i < n
      · rw [if_pos h, if_pos (by omega)]
        rfl
      · rw [if_neg h]
        by_cases h2 : i = n
        · subst h2
          simp
        · rw [if_neg (by omega)]
          have hbe : (n == i) = false := beq_eq_false_iff_ne.mpr (by omega)
          simp [List.find?, hbe]

/-- C9: `indexed_dataset()` builds, once and cached, a mapping whose key
domain is exactly the positions 0 .. min(len(Dataset), 1000) - 1, mapping
each key i to the record at position i of the loaded dataset; a later call,
with any file contents, returns the same cached mapping and state. -/
theorem claim_C9 (fileRows : List Record) :
    ((Server.indexed_dataset fileRows Server.init).1.map (fun e => e.1) =
        List.range (min (fileRows.drop 1).length 1000)) ∧
    (∀ i : Nat, i < min (fileRows.drop 1).length 1000 →
        lookupKey (Server.indexed_dataset fileRows Server.init).1 i =
          some ((fileRows.drop 1).getD i [])) ∧
    (∀ fileRows2 : List Record,
        Server.indexed_dataset fileRows2 (Server.indexed_dataset fileRows Server.init).2 =
          Server.indexed_dataset fileRows Server.init) := by
  refine ⟨?_, ?_, ?_⟩
  · show ((List.range ((fileRows.drop 1).take 1000).length).map
        (fun i => (i, ((fileRows.drop 1).take 1000).getD i []))).map (fun e => e.1) =
      List.range (min (fileRows.drop 1).length 1000)
    rw [List.map_map]
    have hcomp : ((fun (e : Nat × Record) => e.1) ∘
        fun i => (i, ((fileRows.drop 1).take 1000).getD i [])) = id := rfl
    rw [hcomp, List.map_id, List.length_take, Nat.min_comm]
  · intro i hi
    show (((List.range ((fileRows.drop 1).take 1000).length).map
        (fun j => (j, ((fileRows.drop 1).take 1000).getD j []))).find?
          (fun e => e.1 == i)).map (fun e => e.2) =
      some ((fileRows.drop 1).getD i [])
    rw [find_mapRange, if_pos (by rw [List.length_take]; omega)]
    show some (((fileRows.drop 1).take 1000).getD i []) =
      some ((fileRows.drop 1).getD i [])
    rw [List.getD_eq_getElem?_getD, List.getD_eq_getElem?_getD,
      List.getElem?_take, if_pos (by omega)]
  · intro fileRows2
    rfl

end AlxBackend
namespace AlxBackend

/-- Every key of the Index Map is bounded by `maxKey`. -/
theorem le_maxKey (m : List (Nat × Record)) : ∀ e ∈ m, e.1 ≤ maxKey m := by
  induction m with
  | nil => intro e he; exact absurd he (List.not_mem_nil e)
  | cons a t ih =>
      intro e he
      rcases List.mem_cons.mp he with h | h
      · subst h
        exact Nat.le_max_left _ _
      · exact Nat.le_trans (ih e h) (Nat.le_max_right _ _)

/-- A failed lookup means the key is absent from the map. -/
theorem lookupKey_none (m : List (Nat × Record)) (i : Nat)
    (h : lookupKey m i = none) : ∀ e ∈ m, e.1 ≠ i := by
  intro e he
  unfold lookupKey at h
  rw [Option.map_eq_none'] at h
  have h2 := List.find?_eq_none.mp h e he
  simpa using h2

/-- When key `i` is absent, the entries with key ≥ i are those with
key ≥ i + 1. -/
theorem filter_ge_of_none (m : List (Nat × Record)) (i : Nat)
    (h : lookupKey m i = none) :
    m.filter (fun e => i ≤ e.1) = m.filter (fun e => i + 1 ≤ e.1) := by
  apply List.filter_congr
  intro e he
  have := lookupKey_none m i h e he
  simp only [decide_eq_decide]
  omega

/-- When key `i` is present in a key-sorted map, the entries with key ≥ i
are that entry followed by those with key ≥ i + 1. -/
theorem filter_ge_of_some (m : List (Nat × Record)) (i : Nat) (r : Record)
    (hsort : m.Pairwise (fun a b => a.1 < b.1))
    (h : lookupKey m i = some r) :
    m.filter (fun e => i ≤ e.1) = (i, r) :: m.filter (fun e => i + 1 ≤ e.1) := by
  induction m with
  | nil => exact absurd h (by simp [lookupKey])
  | cons a t ih =>
      rw [List.pairwise_cons] at hsort
      obtain ⟨ha, hsort2⟩ := hsort
      by_cases hai : a.1 = i
      · have hbe : (a.1 == i) = true := beq_iff_eq.mpr hai
        unfold lookupKey at h
        rw [@List.find?_cons_of_pos _ (fun e => e.1 == i) a t hbe, Option.map_some'] at h
        have hr : a.2 = r := Option.some.inj h
        subst hr
        rw [List.filter_cons, if_pos (by simp; omega)]
        rw [List.filter_cons, if_neg (by simp; omega)]
        have h1 : t.filter (fun e => i ≤ e.1) = t :=
          List.filter_eq_self.mpr (fun e he => by
            have := ha e he; simp; omega)
        have h2 : t.filter (fun e => i + 1 ≤ e.1) = t :=
          List.filter_eq_self.mpr (fun e he => by
            have := ha e he; simp; omega)
        rw [h1, h2]
        have hpair : (i, a.2) = a := by
          rw [← hai]
        rw [hpair]
      · have hbe : (a.1 == i) = false := beq_eq_false_iff_ne.mpr hai
        unfold lookupKey at h
        rw [@List.find?_cons_of_neg _ (fun e => e.1 == i) a t (by simp only []; rw [hbe]; exact Bool.false_ne_true)] at h
        by_cases hlt : a.1 < i
        · rw [List.filter_cons, if_neg (by simp; omega)]
          rw [List.filter_cons, if_neg (by simp; omega)]
          exact ih hsort2 h
        · exfalso
          rcases hfind2 : t.find? (fun e => e.1 == i) with _ | e2
          · rw [hfind2] at h
            exact Option.noConfusion h
          · have he2 := List.mem_of_find?_eq_some hfind2
            have hp := List.find?_some hfind2
            have he2i : e2.1 = i := by simpa using hp
            have := ha e2 he2
            omega

end AlxBackend
namespace AlxBackend

/-- Past the largest key nothing remains. -/
theorem filter_ge_nil (m : List (Nat × Record)) (i : Nat)
    (h : ∀ e ∈ m, e.1 < i) : m.filter (fun e => i ≤ e.1) = [] := by
  rw [List.filter_eq_nil_iff]
  intro e he
  have := h e he
  simp
  omega

/-- The ascending fuelled walk collects exactly the first `psize` entries
with key ≥ i of a key-sorted map, in order. -/
theorem walkCollect_fst (m : List (Nat × Record))
    (hsort : m.Pairwise (fun a b => a.1 < b.1)) :
    ∀ (fuel i psize : Nat), (∀ e ∈ m, e.1 < i + fuel) →
      (walkCollect m fuel i psize).1 =
        (m.filter (fun e => i ≤ e.1)).take psize := by
  intro fuel
  induction fuel with
  | zero =>
      intro i psize hbound
      rw [walkCollect, filter_ge_nil m i (by simpa using hbound)]
      simp
  | succ fuel ih =>
      intro i psize hbound
      rw [walkCollect]
      by_cases hz : psize = 0
      · subst hz
        simp
      · rw [if_neg hz]
        rcases hlk : lookupKey m i with _ | r
        · rw [filter_ge_of_none m i hlk]
          exact ih (i + 1) psize (fun e he => by have := hbound e he; omega)
        · rw [filter_ge_of_some m i r hsort hlk]
          obtain ⟨q, rfl⟩ : ∃ q, psize = q + 1 := ⟨psize - 1, by omega⟩
          rw [List.take_succ_cons]
          simp only [Nat.add_sub_cancel]
          rw [ih (i + 1) q (fun e he => by have := hbound e he; omega)]

end AlxBackend
namespace AlxBackend

/-- C1: for every key-sorted Index Map, every in-domain starting index and
every page_size ≥ 1, `get_hyper_index(index, page_size)` collects records by
walking forward through the key space in ascending order from `index`,
skipping absent (deleted) keys, until page_size entries are collected or keys
are exhausted: its `data` is the records of the map's entries with key ≥
index, in ascending key order, truncated to page_size; in particular, for the
map {0:A,1:B,2:C,3:D} with key 1 deleted, `get_hyper_index(0, 2)` returns a
descriptor whose data field is [A, C]. -/
theorem claim_C1 :
    (∀ (m : List (Nat × Record)) (index page_size : Nat),
        m.Pairwise (fun a b => a.1 < b.1) → index < m.length → 1 ≤ page_size →
        ∃ d : DelPage, get_hyper_index m (index : Int) page_size = .ok d ∧
          d.data = ((m.filter (fun e => index ≤ e.1)).take page_size).map
            (fun e => e.2) ∧
          d.index = index ∧ d.page_size = d.data.length) ∧
    get_hyper_index mEx 0 2 = .ok ⟨0, 3, 2, [["A"], ["C"]]⟩ := by
  constructor
  · intro m index psize hsort hidx hps
    rw [get_hyper_index,
      if_pos ⟨Int.natCast_nonneg index, by exact_mod_cast hidx⟩]
    simp only [Int.toNat_natCast]
    refine ⟨_, rfl, ?_, rfl, ?_⟩
    · rw [walkCollect_fst m hsort (maxKey m + 1 - index) index psize
        (fun e he => by have := le_maxKey m e he; omega)]
    · exact (List.length_map _ _).symm
  · rfl

/-- C2: `get_hyper_index(index, page_size)` with `index < 0` or `index` ≥ the
size of the Index Map's key domain fails with the assertion (InvalidArgument)
error rather than returning a result. -/
theorem claim_C2 (m : List (Nat × Record)) (index : Int) (page_size : Nat)
    (h : index < 0 ∨ (m.length : Int) ≤ index) :
    get_hyper_index m index page_size = .error .assertionError := by
  rw [get_hyper_index, if_neg (by omega)]

end AlxBackend
namespace AlxBackend

/-- Witness for C1 at the spec's example map. -/
theorem claim_C1_witness :
    mEx.Pairwise (fun a b => a.1 < b.1) ∧ 0 < mEx.length ∧ (1 : Nat) ≤ 2 ∧
    (∃ d : DelPage, get_hyper_index mEx ((0 : Nat) : Int) 2 = .ok d ∧
      d.data = ((mEx.filter (fun e => 0 ≤ e.1)).take 2).map (fun e => e.2) ∧
      d.index = 0 ∧ d.page_size = d.data.length) :=
  ⟨by decide, by decide, by decide,
    claim_C1.1 mEx 0 2 (by decide) (by decide) (by decide)⟩

/-- Witness for C2 at index = size of the key domain. -/
theorem claim_C2_witness :
    ((3 : Int) < 0 ∨ ((mEx.length : Nat) : Int) ≤ 3) ∧
    get_hyper_index mEx 3 2 = .error .assertionError :=
  ⟨by decide, claim_C2 mEx 3 2 (by decide)⟩

/-- Witness for the amended C3 at page 2 of a one-page dataset. -/
theorem claim_C3_amended_witness :
    (1 : Int) ≤ 2 ∧ (1 : Int) ≤ 1 ∧
    Server.get_hyper [[], ["r"]] Server.init (.int 2) (.int 1) =
      .ok (⟨0, 2, [], none, some 1, 1⟩, ⟨some [["r"]], none⟩) ∧
    (((⟨0, 2, [], none, some 1, 1⟩ : PageHyper).next_page = none ↔
        ((⟨0, 2, [], none, some 1, 1⟩ : PageHyper).total_pages : Int) ≤
          (⟨0, 2, [], none, some 1, 1⟩ : PageHyper).page) ∧
     ((⟨0, 2, [], none, some 1, 1⟩ : PageHyper).prev_page = none ↔
        (⟨0, 2, [], none, some 1, 1⟩ : PageHyper).page = 1)) :=
  ⟨by decide, by decide, rfl,
    claim_C3_amended [[], ["r"]] Server.init 2 1 (by decide) (by decide)
      ⟨0, 2, [], none, some 1, 1⟩ ⟨some [["r"]], none⟩ rfl⟩

/-- Witness for C4 at page 2 of a one-page dataset. -/
theorem claim_C4_witness :
    (⟨0, 2, [], none, some 1, 1⟩ : PageHyper).page_size =
        (⟨0, 2, [], none, some 1, 1⟩ : PageHyper).data.length ∧
    ((⟨0, 2, [], none, some 1, 1⟩ : PageHyper).data.length : Int) ≤ 1 :=
  claim_C4 [[], ["r"]] Server.init 2 1 (by decide) (by decide)
    ⟨0, 2, [], none, some 1, 1⟩ ⟨some [["r"]], none⟩ rfl

/-- Witness for C5 at page 1, page_size 2, on a one-record dataset. -/
theorem claim_C5_witness :
    Server.get_page [[], ["r"]] Server.init (.int 1) (.int 2) =
      .ok ((⟨1, 1, [["r"]], none, none, 1⟩ : PageHyper).data,
           (⟨some [["r"]], none⟩ : ServerState)) ∧
    (⟨1, 1, [["r"]], none, none, 1⟩ : PageHyper).total_pages =
      ⌈((Server.dataset [[], ["r"]] Server.init).1.length : ℚ) / (((2 : Int)) : ℚ)⌉₊ :=
  claim_C5 [[], ["r"]] Server.init 1 2 (by decide) (by decide)
    ⟨1, 1, [["r"]], none, none, 1⟩ ⟨some [["r"]], none⟩ rfl

/-- Witness for C6 at a non-integer page argument. -/
theorem claim_C6_witness :
    validArgs .nonInt (.int 10) = false ∧
    isOkB (Server.get_page [] Server.init .nonInt (.int 10)) =
      validArgs .nonInt (.int 10) ∧
    Server.get_page [] Server.init .nonInt (.int 10) = .error .assertionError :=
  ⟨by decide, (claim_C6 [] Server.init .nonInt (.int 10)).1,
    (claim_C6 [] Server.init .nonInt (.int 10)).2 (by decide)⟩

/-- Witness for C7: page 1000 of a 50-record dataset is empty. -/
theorem claim_C7_witness :
    (1 : Int) ≤ 1000 ∧ (1 : Int) ≤ 10 ∧
    ((Server.dataset rows51 Server.init).1.length : Int) ≤ (1000 - 1) * 10 ∧
    Server.get_page rows51 Server.init (.int 1000) (.int 10) =
      .ok ([], (Server.dataset rows51 Server.init).2) :=
  ⟨by decide, by decide, by decide,
    (claim_C7 rows51 Server.init 1000 10 (by decide) (by decide)).2.2 (by decide)⟩

/-- Witness for C9 at key 1 of a two-record dataset. -/
theorem claim_C9_witness :
    1 < min (rows3.drop 1).length 1000 ∧
    lookupKey (Server.indexed_dataset rows3 Server.init).1 1 =
      some ((rows3.drop 1).getD 1 []) :=
  ⟨by decide, (claim_C9 rows3).2.1 1 (by decide)⟩

end AlxBackend
